import Mathlib

/-!
Verification development for the legislator social-media dashboard
(`src/app.py`).  The pandas data model is shallowly embedded: a dataframe
is a header (list of column names) and a list of rows, each row a list of
cells; a cell is an integer, a string, or NA (NaN).  All definitions are
translated from the source; the sole spec-side definition
(`specContainsCI`) is clearly marked.
-/

namespace AppJoao

/-- One dataframe cell: an integer, a string, or missing (pandas NaN). -/
inductive Cell where
  | int (n : Int)
  | str (s : String)
  | na
deriving DecidableEq, Repr

def Cell.isInt : Cell → Bool
  | .int _ => true
  | _ => false

def Cell.isStr : Cell → Bool
  | .str _ => true
  | _ => false

/-- A pandas DataFrame: column names plus rows of cells. -/
structure DataFrame where
  header : List String
  rows : List (List Cell)
deriving DecidableEq, Repr

/-- `pd.DataFrame()`, the empty frame returned on load failure. -/
def DataFrame.empty : DataFrame := ⟨[], []⟩

/-- Cell of a row at column position `i` (NA when out of range; pandas
frames are rectangular, so the default never fires on real data). -/
def getCell : List Cell → Nat → Cell
  | [], _ => .na
  | c :: _, 0 => c
  | _ :: r, i + 1 => getCell r i

/-- Write cell `v` at position `i`, padding with NA if the row is short. -/
def setCell : List Cell → Nat → Cell → List Cell
  | [], 0, v => [v]
  | [], i + 1, v => .na :: setCell [] i v
  | _ :: r, 0, v => v :: r
  | c :: r, i + 1, v => c :: setCell r i v

/-- Position of the first column with the given label, as pandas
label-based access resolves it. -/
def colIdx : List String → String → Option Nat
  | [], _ => none
  | h :: t, c => if h = c then some 0 else (colIdx t c).map (· + 1)

/-- Row truncated or NA-padded to exactly `n` cells (the left block of a
merge result; real frames are rectangular so this is the row itself). -/
def takePad : Nat → List Cell → List Cell
  | 0, _ => []
  | n + 1, [] => .na :: takePad n []
  | n + 1, c :: r => c :: takePad n r

def catLists {α : Type} : List (List α) → List α
  | [] => []
  | l :: ls => l ++ catLists ls

/-- Python exceptions that the loaders can catch. -/
inductive Err where
  | parse (m : String)
  | key (c : String)
  | dtype (c : String)
  | value (s : String)
deriving DecidableEq, Repr

def errStr : Err → String
  | .parse m => m
  | .key c => "KeyError: " ++ c
  | .dtype c => "TypeError: " ++ c
  | .value s => "invalid literal for int: " ++ s

/-- An uploaded raw file: either it decodes to a table via `pd.read_csv`
or decoding fails with an exception message. -/
inductive RawInput where
  | file (df : DataFrame)
  | undecodable (m : String)
deriving DecidableEq, Repr

/-- `pd.read_csv`: produce the decoded table or raise. -/
def readCsv : RawInput → Except Err DataFrame
  | .file df => .ok df
  | .undecodable m => .error (.parse m)

/-! ### `pd.merge(df_deputados, df_engajamento, on='nome_deputado', how='left')`

Output columns: the left columns in order (the key kept as is, any other
label also present on the right suffixed `_x`), then the right non-key
columns (suffixed `_y` when the label is also on the left).  Each left row
is emitted once per matching right row, in right order, or once with NA in
the right block when no right key matches.  Pandas raises `KeyError` when
the key label is absent. -/

def keyMatches (k : Cell) (jR : Nat) (rr : List Cell) : Bool :=
  decide (getCell rr jR = k)

def mergeRowsFor (nL : Nat) (jL jR : Nat) (rPos : List Nat) (rrows : List (List Cell))
    (lrow : List Cell) : List (List Cell) :=
  let ms := rrows.filter (keyMatches (getCell lrow jL) jR)
  if ms.isEmpty then
    [takePad nL lrow ++ rPos.map (fun _ => Cell.na)]
  else
    ms.map (fun rr => takePad nL lrow ++ rPos.map (getCell rr))

/-- Positions of the right frame's non-key columns, in order. -/
def nonKeyPos (hR : List String) (key : String) : List Nat :=
  (List.range hR.length).filter (fun i => hR.getD i "" ≠ key)

def mergeHeader (hL hR : List String) (key : String) : List String :=
  hL.map (fun c => if c = key then c else if c ∈ hR then c ++ "_x" else c)
    ++ (nonKeyPos hR key).map (fun i =>
        let c := hR.getD i ""
        if c ∈ hL then c ++ "_y" else c)

def merge (L R : DataFrame) (key : String) : Except Err DataFrame :=
  match colIdx L.header key, colIdx R.header key with
  | some jL, some jR =>
      .ok ⟨mergeHeader L.header R.header key,
           catLists (L.rows.map
             (mergeRowsFor L.header.length jL jR (nonKeyPos R.header key) R.rows))⟩
  | _, _ => .error (.key key)

/-- `df_completo.rename(columns={'seguidores_x': 'seguidores_twitter'})`. -/
def renameCols (df : DataFrame) : DataFrame :=
  ⟨df.header.map (fun c => if c = "seguidores_x" then "seguidores_twitter" else c),
   df.rows⟩

/-- Accumulate the value of a decimal digit string; `none` on any
non-digit. -/
def digitsAux : List Char → Nat → Option Nat
  | [], acc => some acc
  | c :: r, acc => if c.isDigit then digitsAux r (acc * 10 + (c.toNat - 48)) else none

def parseNat? : List Char → Option Nat
  | [] => none
  | l => digitsAux l 0

/-- Python's `int(str)` on the fragment relevant here: a decimal integer
literal with an optional leading minus sign parses; anything else (empty,
letters, decimals) raises. -/
def strToInt? (s : String) : Option Int :=
  match s.data with
  | '-' :: rest => (parseNat? rest).map (fun n => -(n : Int))
  | l => (parseNat? l).map (fun n => (n : Int))

/-- `fillna(0).astype(int)` on one cell: NA becomes 0; an integer stays;
a string must be a decimal integer literal (else `astype(int)` raises
`ValueError`, here `Err.value`). -/
def coerceCell : Cell → Except Err Cell
  | .na => .ok (.int 0)
  | .int n => .ok (.int n)
  | .str s =>
      match strToInt? s with
      | some n => .ok (.int n)
      | none => .error (.value s)

/-- Apply `coerceCell` down column `j` of the rows, stopping at the first
failing cell exactly as the raising pandas call does. -/
def coerceRows (j : Nat) : List (List Cell) → Except Err (List (List Cell))
  | [] => .ok []
  | r :: rs =>
      match coerceCell (getCell r j) with
      | .error e => .error e
      | .ok v =>
          match coerceRows j rs with
          | .error e => .error e
          | .ok rs' => .ok (setCell r j v :: rs')

/-- One iteration of the column-completion loop: `if col not in
df.columns: df[col] = 0` followed by `df[col] =
df[col].fillna(0).astype(int)`. -/
def fixCol (df : DataFrame) (c : String) : Except Err DataFrame :=
  match colIdx df.header c with
  | some j => (coerceRows j df.rows).map (fun rs => ⟨df.header, rs⟩)
  | none =>
      let j := df.header.length
      let rows0 := df.rows.map (fun r => setCell r j (Cell.int 0))
      (coerceRows j rows0).map (fun rs => ⟨df.header ++ [c], rs⟩)

/-- The three engagement-metric columns the loop guarantees. -/
def engCols : List String :=
  ["seguidores_twitter", "curtidas_instagram", "visualizacoes_tiktok"]

/-- The full `for col in [...]` completion/coercion loop. -/
def normalizeCols (df : DataFrame) : Except Err DataFrame :=
  engCols.foldlM fixCol df

/-- The body of `load_data` after a successful `read_csv`: self-merge on
`nome_deputado`, rename `seguidores_x`, complete and coerce the three
engagement columns. -/
def loadDataE (df : DataFrame) : Except Err DataFrame := do
  let m ← merge df df "nome_deputado"
  normalizeCols (renameCols m)

/-- `load_data`: on any exception, `st.error(...)` is emitted (returned
here as the message list) and an empty frame is returned. -/
def loadData (raw : RawInput) : DataFrame × List String :=
  match (readCsv raw).bind loadDataE with
  | .ok d => (d, [])
  | .error e => (DataFrame.empty, ["Erro ao carregar dados: " ++ errStr e])

/-- Models `pd.to_datetime(errors='coerce')` on the fragment this data
holds: a string of digits, dashes, slashes, spaces and colons is treated
as a parseable date and kept; any other string becomes NaT (NA).
Integer cells (epoch interpretation) are kept abstractly.  No claim
depends on date values. -/
def pdToDatetime : Cell → Cell
  | .str s =>
      if s ≠ "" ∧ s.data.all (fun c => c.isDigit || c = '-' || c = '/' || c = ' ' || c = ':')
      then .str s else .na
  | .int n => .int n
  | .na => .na

/-- `pd.to_numeric(errors='coerce').fillna(0).astype(int)`: non-numeric
strings become NaN and then 0; this never raises. -/
def toNumericFill : Cell → Cell
  | .int k => .int k
  | .str s =>
      match strToInt? s with
      | some k => .int k
      | none => .int 0
  | .na => .int 0

/-- Replace column `j` by mapping `f` over its cells. -/
def setColCells (df : DataFrame) (j : Nat) (f : Cell → Cell) : DataFrame :=
  ⟨df.header, df.rows.map (fun r => setCell r j (f (getCell r j)))⟩

def colIdxE (h : List String) (c : String) : Except Err Nat :=
  match colIdx h c with
  | some j => .ok j
  | none => .error (.key c)

/-- `load_posts`: read the semicolon CSV, coerce the `Date` column with
`to_datetime(errors='coerce')` and `Engajamento total` with
`to_numeric(errors='coerce').fillna(0).astype(int)`; any exception is
caught, reported, and an empty frame returned. -/
def loadPosts (raw : RawInput) : DataFrame × List String :=
  match (do
      let df ← readCsv raw
      let jD ← colIdxE df.header "Date"
      let df1 := setColCells df jD pdToDatetime
      let jE ← colIdxE df1.header "Engajamento total"
      pure (setColCells df1 jE toNumericFill) : Except Err DataFrame) with
  | .ok d => (d, [])
  | .error e => (DataFrame.empty, ["Erro ao carregar Posts.csv: " ++ errStr e])

/-! ### Filtering (`main`, lines 83-89 and 143-145) -/

/-- Pandas `==` between a cell and a selected string: NaN compares
false, numbers compare false against strings. -/
def cellEqStr (c : Cell) (v : String) : Bool :=
  match c with
  | .str s => s == v
  | _ => false

/-- Cell of row `r` under the label `col` (pandas raises `KeyError` on a
missing label; the claims only use this with the column present, and the
model yields a never-matching NA then). -/
def getColCell (df : DataFrame) (col : String) (r : List Cell) : Cell :=
  match colIdx df.header col with
  | some j => getCell r j
  | none => .na

/-- `df[df[col] == v]`. -/
def filterEq (df : DataFrame) (col v : String) : DataFrame :=
  ⟨df.header, df.rows.filter (fun r => cellEqStr (getColCell df col r) v)⟩

/-! ### `str.contains(search_name, case=False, na=False)`

Pandas interprets the pattern as a Python regular expression
(`regex=True` is the default) and searches it case-insensitively.  The
model covers the fragment of `re.search` generated by literal characters
and the `.` wildcard (which for `re` matches any character except a
newline; names contain no newlines). -/

inductive RTok where
  | lit (c : Char)
  | dot
deriving DecidableEq, Repr

/-- Compile a pattern: `.` is the wildcard, everything else a literal
(case-folded for `re.IGNORECASE`). -/
def compilePat (p : String) : List RTok :=
  p.data.map (fun c => if c = '.' then RTok.dot else RTok.lit c.toLower)

def matchTok : RTok → Char → Bool
  | .dot, _ => true
  | .lit c, x => c == x.toLower

/-- Does the token list match some leading segment of the text? -/
def matchPre : List RTok → List Char → Bool
  | [], _ => true
  | _ :: _, [] => false
  | t :: ts, x :: xs => matchTok t x && matchPre ts xs

/-- `re.search`: try to match at every start position. -/
def reSearch : List RTok → List Char → Bool
  | ts, [] => matchPre ts []
  | ts, x :: xs => matchPre ts (x :: xs) || reSearch ts xs

/-- One record's name against the search box: `na=False` makes NA (and
the non-string cells the `.str` accessor turns into NaN) never match. -/
def nameMatches (pat : String) (c : Cell) : Bool :=
  match c with
  | .str s => reSearch (compilePat pat) s.data
  | _ => false

/-- `df[df['nome_deputado'].str.contains(search_name, case=False, na=False)]`. -/
def filterName (df : DataFrame) (pat : String) : DataFrame :=
  ⟨df.header, df.rows.filter (fun r => nameMatches pat (getColCell df "nome_deputado" r))⟩

/-- The sidebar filter cascade of `main` (lines 83-89): each constraint
applies only when its selector is away from the sentinel. -/
def applyFilters (df : DataFrame) (uf partido search : String) : DataFrame :=
  let d1 := if uf ≠ "Todas" then filterEq df "uf" uf else df
  let d2 := if partido ≠ "Todos" then filterEq d1 "partido" partido else d1
  if search ≠ "" then filterName d2 search else d2

/-- The posts network filter (lines 143-145). -/
def filterPosts (df : DataFrame) (rede : String) : DataFrame :=
  if rede ≠ "Todas" then filterEq df "Top 5 values of Network.keyword" rede else df

/-! ### `df.nlargest(n, col)` (lines 117, 122, 127, 148)

Pandas raises `KeyError` for a missing label and `TypeError` for an
object-dtype (string-holding) column; otherwise it drops NaN rows, sorts
the rest by the column descending with a stable mergesort
(`keep='first'`), and takes the first `n`. -/

/-- A row tagged with its original position and its sort key. -/
structure TRow where
  idx : Nat
  val : Int
  cells : List Cell
deriving DecidableEq, Repr

/-- Rows whose cell in column `j` is an integer, tagged with positions
counting from `i`; NaN rows are dropped as `nlargest` does. -/
def tagRows (j : Nat) : Nat → List (List Cell) → List TRow
  | _, [] => []
  | i, r :: rs =>
      match getCell r j with
      | .int k => ⟨i, k, r⟩ :: tagRows j (i + 1) rs
      | _ => tagRows j (i + 1) rs

def tagged (df : DataFrame) (j : Nat) : List TRow :=
  tagRows j 0 df.rows

/-- Sort order of `nlargest`: value descending, original position
ascending (the stable mergesort tie-break). -/
def trel (a b : TRow) : Prop :=
  b.val < a.val ∨ (a.val = b.val ∧ a.idx ≤ b.idx)

instance : DecidableRel trel := fun a b => by
  unfold trel; infer_instance

instance : IsTotal TRow trel :=
  ⟨fun a b => by
    rcases lt_trichotomy a.val b.val with h | h | h
    · exact Or.inr (Or.inl h)
    · rcases Nat.le_total a.idx b.idx with h2 | h2
      · exact Or.inl (Or.inr ⟨h, h2⟩)
      · exact Or.inr (Or.inr ⟨h.symm, h2⟩)
    · exact Or.inl (Or.inl h)⟩

instance : IsTrans TRow trel :=
  ⟨fun a b c hab hbc => by
    rcases hab with h1 | ⟨e1, i1⟩ <;> rcases hbc with h2 | ⟨e2, i2⟩
    · exact Or.inl (h2.trans h1)
    · exact Or.inl (e2 ▸ h1)
    · exact Or.inl (e1 ▸ h2)
    · exact Or.inr ⟨e1.trans e2, i1.trans i2⟩⟩

/-- The ordered selection underlying `nlargest`. -/
def nlargestSel (df : DataFrame) (j : Nat) (n : Nat) : List TRow :=
  (List.insertionSort trel (tagged df j)).take n

/-- `df.nlargest(n, col)`. -/
def nlargest (df : DataFrame) (n : Nat) (col : String) : Except Err DataFrame :=
  match colIdx df.header col with
  | none => .error (.key col)
  | some j =>
      if df.rows.any (fun r => (getCell r j).isStr) then .error (.dtype col)
      else .ok ⟨df.header, (nlargestSel df j n).map TRow.cells⟩

/-! ### Spec-side definitions and normalization invariant -/

/-- Boolean: literal pattern matches a leading segment of the text. -/
def prefB : List Char → List Char → Bool
  | [], _ => true
  | _ :: _, [] => false
  | c :: cs, x :: xs => c == x && prefB cs xs

/-- Boolean: literal pattern occurs somewhere in the text. -/
def subB : List Char → List Char → Bool
  | p, [] => prefB p []
  | p, x :: xs => prefB p (x :: xs) || subB p xs

/-- Modelled from the spec: "comparison is case-insensitive" substring
occurrence of the search text in a name.  This is the spec's matching
semantics, to be compared with the code's `nameMatches`. -/
def specContainsCI (pat s : String) : Bool :=
  subB (pat.data.map Char.toLower) (s.data.map Char.toLower)

/-- Python regex metacharacters; a pattern free of them is a plain
string search. -/
def metaChars : List Char :=
  ['.', '^', '$', '*', '+', '?', '(', ')', '[', ']', '|', '\\',
   Char.ofNat 123, Char.ofNat 125]

/-- The spec's Table invariant: the three engagement columns exist and
every cell in them is an integer. -/
def colIntAll (df : DataFrame) (c : String) : Bool :=
  match colIdx df.header c with
  | some j => df.rows.all (fun r => (getCell r j).isInt)
  | none => false

def checkNormalized (df : DataFrame) : Bool :=
  engCols.all (colIntAll df)

/-! ## Basic lemmas about the embedding -/

theorem getCell_setCell_self : ∀ (r : List Cell) (i : Nat) (v : Cell),
    getCell (setCell r i v) i = v
  | [], 0, _ => rfl
  | [], i + 1, v => getCell_setCell_self [] i v
  | _ :: _, 0, _ => rfl
  | _ :: r, i + 1, v => getCell_setCell_self r i v

theorem getCell_setCell_ne : ∀ (r : List Cell) (i k : Nat) (v : Cell), i ≠ k →
    getCell (setCell r i v) k = getCell r k
  | [], 0, 0, _, h => absurd rfl h
  | [], 0, _ + 1, _, _ => rfl
  | [], _ + 1, 0, _, _ => rfl
  | [], i + 1, k + 1, v, h =>
      getCell_setCell_ne [] i k v (fun he => h (by rw [he]))
  | _ :: _, 0, 0, _, h => absurd rfl h
  | _ :: _, 0, _ + 1, _, _ => rfl
  | _ :: _, _ + 1, 0, _, _ => rfl
  | _ :: r, i + 1, k + 1, v, h =>
      getCell_setCell_ne r i k v (fun he => h (by rw [he]))

theorem getCell_nil : ∀ i, getCell [] i = Cell.na
  | 0 => rfl
  | _ + 1 => rfl

theorem getCell_append : ∀ (a b : List Cell) (i : Nat),
    getCell (a ++ b) i = if i < a.length then getCell a i else getCell b (i - a.length)
  | [], b, i => by simp [getCell_nil]
  | c :: a, b, 0 => by simp [getCell]
  | c :: a, b, i + 1 => by
      show getCell (a ++ b) i = _
      rw [getCell_append a b i]
      by_cases h : i < a.length
      · rw [if_pos h, if_pos (by simpa using Nat.succ_lt_succ h)]
        rfl
      · rw [if_neg h, if_neg (by simp only [List.length_cons]; omega)]
        show getCell b (i - a.length) = getCell b (i + 1 - (a.length + 1))
        congr 1
        omega

theorem length_takePad : ∀ (n : Nat) (r : List Cell), (takePad n r).length = n
  | 0, _ => rfl
  | n + 1, [] => by simp [takePad, length_takePad n []]
  | n + 1, _ :: r => by simp [takePad, length_takePad n r]

theorem getCell_takePad : ∀ (n : Nat) (r : List Cell) (i : Nat), i < n →
    getCell (takePad n r) i = getCell r i
  | 0, _, _, h => absurd h (by omega)
  | n + 1, [], 0, _ => rfl
  | n + 1, [], i + 1, h => by
      simpa [takePad, getCell, getCell_nil] using getCell_takePad n [] i (by omega)
  | n + 1, _ :: _, 0, _ => rfl
  | n + 1, _ :: r, i + 1, h => getCell_takePad n r i (by omega)

theorem getCell_map_na : ∀ (l : List Nat) (i : Nat),
    getCell (l.map fun _ => Cell.na) i = Cell.na
  | [], i => getCell_nil i
  | _ :: l, 0 => rfl
  | _ :: l, i + 1 => getCell_map_na l i

theorem colIdx_lt : ∀ {h : List String} {c : String} {i : Nat},
    colIdx h c = some i → i < h.length := by
  intro h
  induction h with
  | nil => intro c i hc; simp [colIdx] at hc
  | cons a t ih =>
      intro c i hc
      simp only [colIdx] at hc
      by_cases ha : a = c
      · rw [if_pos ha] at hc
        simp at hc
        simp only [List.length_cons]
        omega
      · rw [if_neg ha] at hc
        cases ht : colIdx t c with
        | none => rw [ht] at hc; simp at hc
        | some k =>
            rw [ht] at hc
            simp at hc
            have := ih ht
            simp only [List.length_cons]
            omega

theorem colIdx_getD : ∀ {h : List String} {c : String} {i : Nat},
    colIdx h c = some i → h.getD i "" = c := by
  intro h
  induction h with
  | nil => intro c i hc; simp [colIdx] at hc
  | cons a t ih =>
      intro c i hc
      simp only [colIdx] at hc
      by_cases ha : a = c
      · rw [if_pos ha] at hc
        simp at hc
        subst hc
        simpa using ha
      · rw [if_neg ha] at hc
        cases ht : colIdx t c with
        | none => rw [ht] at hc; simp at hc
        | some k =>
            rw [ht] at hc
            simp at hc
            subst hc
            rw [List.getD_cons_succ]
            exact ih ht

theorem colIdx_inj {h : List String} {c c' : String} {i i' : Nat}
    (hc : colIdx h c = some i) (hc' : colIdx h c' = some i') (hne : c ≠ c') : i ≠ i' := by
  intro he
  apply hne
  have g1 := colIdx_getD hc
  have g2 := colIdx_getD hc'
  rw [← g1, ← g2, he]

theorem colIdx_append_left : ∀ {h : List String} (t : List String) {c : String} {i : Nat},
    colIdx h c = some i → colIdx (h ++ t) c = some i := by
  intro h
  induction h with
  | nil => intro t c i hc; simp [colIdx] at hc
  | cons a h' ih =>
      intro t c i hc
      simp only [colIdx] at hc
      show (if a = c then some 0 else (colIdx (h' ++ t) c).map (· + 1)) = some i
      by_cases ha : a = c
      · rw [if_pos ha] at hc ⊢
        exact hc
      · rw [if_neg ha] at hc ⊢
        cases ht : colIdx h' c with
        | none => rw [ht] at hc; simp at hc
        | some k => rw [ht] at hc; rw [ih t ht]; exact hc

theorem colIdx_none_iff : ∀ {h : List String} {c : String},
    colIdx h c = none ↔ c ∉ h := by
  intro h
  induction h with
  | nil => intro c; simp [colIdx]
  | cons a t ih =>
      intro c
      simp only [colIdx, List.mem_cons]
      by_cases ha : a = c
      · simp [ha]
      · simp only [ha, if_false, Option.map_eq_none']
        rw [ih]
        constructor
        · intro hn hm
          rcases hm with hm | hm
          · exact ha hm.symm
          · exact hn hm
        · intro hn hm
          exact hn (Or.inr hm)

theorem colIdx_append_new {h : List String} {c : String}
    (hn : colIdx h c = none) : colIdx (h ++ [c]) c = some h.length := by
  induction h with
  | nil => simp [colIdx]
  | cons a t ih =>
      simp only [colIdx, List.cons_append] at hn ⊢
      by_cases ha : a = c
      · simp [ha] at hn
      · simp only [ha, if_false, Option.map_eq_none'] at hn
        simp [ha, ih hn]

theorem colIdx_append_keep {h : List String} {d c : String}
    (hn : colIdx h c = none) (hne : c ≠ d) : colIdx (h ++ [d]) c = none := by
  rw [colIdx_none_iff] at hn ⊢
  intro hm
  rcases List.mem_append.1 hm with hm | hm
  · exact hn hm
  · simp at hm; exact hne hm

theorem mem_catLists {α : Type} {x : α} : ∀ {ll : List (List α)},
    x ∈ catLists ll ↔ ∃ l ∈ ll, x ∈ l := by
  intro ll
  induction ll with
  | nil => simp [catLists]
  | cons l ls ih => simp [catLists, List.mem_append, ih]

/-! ## C5: the all-sentinel filter is the identity -/

/-- C5: applying the filter cascade with every constraint at its "any"
sentinel (uf = "Todas", partido = "Todos", empty search text, network =
"Todas") returns the input table unchanged. -/
theorem c5_filter_identity (df dfp : DataFrame) :
    applyFilters df "Todas" "Todos" "" = df ∧ filterPosts dfp "Todas" = dfp := by
  constructor
  · simp [applyFilters]
  · simp [filterPosts]

/-! ## C9: load failure yields an empty table plus an error signal -/

/-- C9: when the raw file cannot be decoded, both loaders return the
explicitly empty table together with a non-empty error message list (the
`st.error` signal) instead of propagating the exception; and in general a
`loadData` result is either error-free or the empty table. -/
theorem c9_load_error_empty (m : String) :
    loadData (.undecodable m) = (DataFrame.empty, ["Erro ao carregar dados: " ++ m]) ∧
    loadPosts (.undecodable m) = (DataFrame.empty, ["Erro ao carregar Posts.csv: " ++ m]) ∧
    ∀ raw : RawInput, (loadData raw).2 = [] ∨ ((loadData raw).1 = DataFrame.empty ∧ (loadData raw).2 ≠ []) := by
  refine ⟨rfl, rfl, fun raw => ?_⟩
  unfold loadData
  cases (readCsv raw).bind loadDataE <;> simp

/-! ## C10: which columns make `nlargest` fail -/

/-- C10 (amended): `nlargest` fails exactly when the column is absent
(`KeyError`) or holds a string cell (object dtype, `TypeError`); it does
not fail on a numeric column merely because it is not an engagement
column. -/
theorem c10_error_iff (df : DataFrame) (n : Nat) (col : String) :
    (∃ e, nlargest df n col = .error e) ↔
      colIdx df.header col = none ∨
      ∃ j, colIdx df.header col = some j ∧
        df.rows.any (fun r => (getCell r j).isStr) = true := by
  unfold nlargest
  cases h : colIdx df.header col with
  | none =>
      dsimp only
      constructor
      · intro; left; rfl
      · intro; exact ⟨.key col, rfl⟩
  | some j =>
      dsimp only
      by_cases hs : df.rows.any (fun r => (getCell r j).isStr) = true
      · rw [if_pos hs]
        constructor
        · intro; right; exact ⟨j, rfl, hs⟩
        · intro; exact ⟨.dtype col, rfl⟩
      · rw [if_neg hs]
        constructor
        · rintro ⟨e, he⟩
          cases he
        · rintro (h1 | ⟨j', hj', hs'⟩)
          · cases h1
          · cases hj'
            exact absurd hs' hs

/-- C10 counterexample: `idade` is a numeric column that is not one of
the known engagement columns, yet `nlargest` succeeds on it, so the
claim "topN fails with an error on every non-engagement column" is
false. -/
theorem c10_counterexample :
    "idade" ∉ engCols ∧
    nlargest ⟨["idade"], [[Cell.int 3]]⟩ 1 "idade" =
      .ok ⟨["idade"], [[Cell.int 3]]⟩ := by
  constructor
  · decide
  · rfl

/-! ## C8: the name search is a case-insensitive regex, which agrees
with substring occurrence exactly on metacharacter-free patterns -/

theorem matchPre_lit : ∀ (ps : List Char) (s : List Char),
    matchPre (ps.map RTok.lit) s = prefB ps (s.map Char.toLower)
  | [], [] => rfl
  | [], _ :: _ => rfl
  | _ :: _, [] => rfl
  | c :: cs, x :: xs => by
      show ((c == x.toLower) && matchPre (cs.map RTok.lit) xs) = _
      rw [matchPre_lit cs xs]
      rfl

theorem reSearch_lit : ∀ (ps : List Char) (s : List Char),
    reSearch (ps.map RTok.lit) s = subB ps (s.map Char.toLower)
  | ps, [] => matchPre_lit ps []
  | ps, x :: xs => by
      show (matchPre (ps.map RTok.lit) (x :: xs) || reSearch (ps.map RTok.lit) xs) = _
      rw [matchPre_lit ps (x :: xs), reSearch_lit ps xs]
      rfl

theorem compilePat_lit {p : String} (h : ∀ c ∈ p.data, c ∉ metaChars) :
    compilePat p = (p.data.map Char.toLower).map RTok.lit := by
  unfold compilePat
  rw [List.map_map]
  apply List.map_congr_left
  intro c hc
  have hdot : c ≠ '.' := fun he => h c hc (by rw [he]; decide)
  simp [hdot, Function.comp]

/-- C8 (amended): the search box text is interpreted as a
case-insensitive Python regular expression, so on patterns free of regex
metacharacters matching is exactly case-insensitive substring occurrence
in the record's name; a NaN (absent) name never matches; and `ali` in any
case matches `Alice` but not `Bob`. -/
theorem c8_name_search (pat s : String) (h : ∀ c ∈ pat.data, c ∉ metaChars) :
    nameMatches pat (Cell.str s) = specContainsCI pat s ∧
    nameMatches pat Cell.na = false ∧
    nameMatches "ali" (Cell.str "Alice") = true ∧
    nameMatches "ALI" (Cell.str "Alice") = true ∧
    nameMatches "ali" (Cell.str "Bob") = false := by
  refine ⟨?_, rfl, by decide, by decide, by decide⟩
  show reSearch (compilePat pat) s.data = specContainsCI pat s
  rw [compilePat_lit h, reSearch_lit]
  rfl

theorem c8_name_search_witness :
    (∀ c ∈ ("ali" : String).data, c ∉ metaChars) ∧
    (nameMatches "ali" (Cell.str "Alice") = specContainsCI "ali" "Alice" ∧
     nameMatches "ali" Cell.na = false ∧
     nameMatches "ali" (Cell.str "Alice") = true ∧
     nameMatches "ALI" (Cell.str "Alice") = true ∧
     nameMatches "ali" (Cell.str "Bob") = false) :=
  ⟨by decide, c8_name_search "ali" "Alice" (by decide)⟩

/-- C8 counterexample: with search text `a.c` the filter keeps a record
named `abc` although `a.c` does not occur in `abc` as a substring — the
pattern is a regular expression, not a plain substring. -/
theorem c8_counterexample :
    nameMatches "a.c" (Cell.str "abc") = true ∧
    specContainsCI "a.c" "abc" = false ∧
    filterName ⟨["nome_deputado"], [[Cell.str "abc"]]⟩ "a.c" =
      ⟨["nome_deputado"], [[Cell.str "abc"]]⟩ := by
  refine ⟨by decide, by decide, rfl⟩

/-! ## C6/C7: `nlargest` bounds, ordering and stability -/

theorem tag_mem : ∀ {rs : List (List Cell)} {j i : Nat} {t : TRow},
    t ∈ tagRows j i rs →
    getCell t.cells j = Cell.int t.val ∧ t.cells ∈ rs ∧ i ≤ t.idx := by
  intro rs
  induction rs with
  | nil => intro j i t ht; simp [tagRows] at ht
  | cons r rs ih =>
      intro j i t ht
      unfold tagRows at ht
      cases hg : getCell r j with
      | int k =>
          rw [hg] at ht
          rcases List.mem_cons.1 ht with he | ht'
          · subst he
            exact ⟨hg, List.mem_cons_self _ _, Nat.le_refl i⟩
          · obtain ⟨h1, h2, h3⟩ := ih ht'
            exact ⟨h1, List.mem_cons_of_mem _ h2, by omega⟩
      | str s =>
          rw [hg] at ht
          obtain ⟨h1, h2, h3⟩ := ih ht
          exact ⟨h1, List.mem_cons_of_mem _ h2, by omega⟩
      | na =>
          rw [hg] at ht
          obtain ⟨h1, h2, h3⟩ := ih ht
          exact ⟨h1, List.mem_cons_of_mem _ h2, by omega⟩

theorem tag_complete : ∀ {rs : List (List Cell)} {j i : Nat} {r : List Cell},
    r ∈ rs → (getCell r j).isInt = true →
    ∃ t ∈ tagRows j i rs, t.cells = r := by
  intro rs
  induction rs with
  | nil => intro j i r hr; simp at hr
  | cons r0 rs ih =>
      intro j i r hr hint
      unfold tagRows
      rcases List.mem_cons.1 hr with he | hr'
      · subst he
        cases hg : getCell r j with
        | int k => exact ⟨⟨i, k, r⟩, List.mem_cons_self _ _, rfl⟩
        | str s => rw [hg] at hint; simp [Cell.isInt] at hint
        | na => rw [hg] at hint; simp [Cell.isInt] at hint
      · obtain ⟨t, ht, hc⟩ := ih (i := i + 1) hr' hint
        cases hg : getCell r0 j with
        | int k => exact ⟨t, List.mem_cons_of_mem _ ht, hc⟩
        | str s => exact ⟨t, ht, hc⟩
        | na => exact ⟨t, ht, hc⟩

theorem tag_pairwise_idx : ∀ (rs : List (List Cell)) (j i : Nat),
    List.Pairwise (fun a b : TRow => a.idx < b.idx) (tagRows j i rs) := by
  intro rs
  induction rs with
  | nil => intro j i; simp [tagRows]
  | cons r rs ih =>
      intro j i
      unfold tagRows
      cases hg : getCell r j with
      | int k =>
          refine List.pairwise_cons.2 ⟨?_, ih j (i + 1)⟩
          intro t ht
          have := (tag_mem ht).2.2
          show i < t.idx
          omega
      | str s => exact ih j (i + 1)
      | na => exact ih j (i + 1)

theorem tag_length : ∀ (rs : List (List Cell)) (j i : Nat),
    (tagRows j i rs).length ≤ rs.length := by
  intro rs
  induction rs with
  | nil => intro j i; simp [tagRows]
  | cons r rs ih =>
      intro j i
      unfold tagRows
      cases getCell r j with
      | int k => simpa using ih j (i + 1)
      | str s => simp; have := ih j (i + 1); omega
      | na => simp; have := ih j (i + 1); omega

theorem trel_val_le {a b : TRow} (h : trel a b) : b.val ≤ a.val := by
  rcases h with h | ⟨h, _⟩
  · exact le_of_lt h
  · exact le_of_eq h.symm

theorem any_isStr_false {df : DataFrame} {j : Nat}
    (hint : ∀ r ∈ df.rows, (getCell r j).isInt = true) :
    df.rows.any (fun r => (getCell r j).isStr) = false := by
  rw [List.any_eq_false]
  intro r hr
  have := hint r hr
  cases hg : getCell r j <;> rw [hg] at this <;> simp [Cell.isInt] at this <;> simp [Cell.isStr]

theorem nlargest_ok_of {df : DataFrame} {col : String} {j : Nat} (n : Nat)
    (hcol : colIdx df.header col = some j)
    (hint : ∀ r ∈ df.rows, (getCell r j).isInt = true) :
    nlargest df n col = .ok ⟨df.header, (nlargestSel df j n).map TRow.cells⟩ := by
  unfold nlargest
  rw [hcol]
  dsimp only
  rw [any_isStr_false hint]
  rfl

theorem nlargest_ok_inv {df : DataFrame} {col : String} {n : Nat} {res : DataFrame}
    (h : nlargest df n col = .ok res) :
    ∃ j, colIdx df.header col = some j ∧
      res = ⟨df.header, (nlargestSel df j n).map TRow.cells⟩ := by
  unfold nlargest at h
  cases hcol : colIdx df.header col with
  | none => rw [hcol] at h; cases h
  | some j =>
      rw [hcol] at h
      dsimp only at h
      by_cases hs : df.rows.any (fun r => (getCell r j).isStr) = true
      · rw [if_pos hs] at h; cases h
      · rw [if_neg hs] at h
        cases h
        exact ⟨j, rfl, rfl⟩

theorem tagged_complete {df : DataFrame} {j : Nat} {r : List Cell}
    (hr : r ∈ df.rows) (hint : (getCell r j).isInt = true) :
    ∃ t ∈ tagged df j, t.cells = r :=
  tag_complete hr hint

theorem mem_sel_tagged {df : DataFrame} {j n : Nat} {t : TRow}
    (h : t ∈ nlargestSel df j n) : t ∈ tagged df j := by
  have h1 : t ∈ List.insertionSort trel (tagged df j) :=
    List.mem_of_mem_take h
  exact (List.mem_insertionSort trel).1 h1

/-- C6: on a numeric column, `nlargest` succeeds, returns at most
`min n |table|` records, returns nothing when `n = 0`, and every returned
record's value in the column is at least every non-returned record's
value. -/
theorem c6_topn_bound (df : DataFrame) (col : String) (j n : Nat)
    (hcol : colIdx df.header col = some j)
    (hint : ∀ r ∈ df.rows, (getCell r j).isInt = true) :
    ∃ res, nlargest df n col = .ok res ∧
      res.rows.length ≤ min n df.rows.length ∧
      (n = 0 → res.rows = []) ∧
      (∀ r ∈ res.rows, ∀ r' ∈ df.rows, r' ∉ res.rows →
        ∀ a b : Int, getCell r j = Cell.int a → getCell r' j = Cell.int b → b ≤ a) := by
  refine ⟨⟨df.header, (nlargestSel df j n).map TRow.cells⟩, nlargest_ok_of n hcol hint,
    ?_, ?_, ?_⟩
  · show ((nlargestSel df j n).map TRow.cells).length ≤ min n df.rows.length
    rw [List.length_map]
    unfold nlargestSel
    rw [List.length_take]
    have h1 : (List.insertionSort trel (tagged df j)).length = (tagged df j).length :=
      (List.perm_insertionSort trel (tagged df j)).length_eq
    have h2 : (tagged df j).length ≤ df.rows.length := tag_length df.rows j 0
    rw [h1]
    exact min_le_min (le_refl n) h2
  · intro hn
    subst hn
    show ((nlargestSel df j 0).map TRow.cells) = []
    unfold nlargestSel
    simp
  · intro r hr r' hr' hnot a b ha hb
    obtain ⟨t, htmem, htc⟩ := List.mem_map.1 hr
    have hint' : (getCell r' j).isInt = true := by rw [hb]; rfl
    obtain ⟨t', ht'tag, ht'c⟩ := tagged_complete hr' hint'
    have hS : t' ∈ List.insertionSort trel (tagged df j) :=
      (List.mem_insertionSort trel).2 ht'tag
    rw [← List.take_append_drop n (List.insertionSort trel (tagged df j))] at hS
    rcases List.mem_append.1 hS with htake | hdrop
    · exact absurd (List.mem_map.2 ⟨t', htake, ht'c⟩) hnot
    · have hrel : trel t t' := List.Sorted.rel_of_mem_take_of_mem_drop
        (List.sorted_insertionSort trel (tagged df j)) htmem hdrop
      have hval := trel_val_le hrel
      have h1 := (tag_mem (mem_sel_tagged htmem)).1
      have h2 := (tag_mem ht'tag).1
      rw [htc, ha] at h1
      rw [ht'c, hb] at h2
      have hav : a = t.val := by injection h1
      have hbv : b = t'.val := by injection h2
      omega

theorem c6_topn_bound_witness :
    colIdx (DataFrame.mk ["v"] [[Cell.int 1], [Cell.int 3], [Cell.int 2]]).header "v" = some 0 ∧
    (∀ r ∈ (DataFrame.mk ["v"] [[Cell.int 1], [Cell.int 3], [Cell.int 2]]).rows,
      (getCell r 0).isInt = true) ∧
    (∃ res, nlargest (DataFrame.mk ["v"] [[Cell.int 1], [Cell.int 3], [Cell.int 2]]) 2 "v" = .ok res ∧
      res.rows.length ≤ min 2 (DataFrame.mk ["v"] [[Cell.int 1], [Cell.int 3], [Cell.int 2]]).rows.length ∧
      (2 = 0 → res.rows = []) ∧
      (∀ r ∈ res.rows, ∀ r' ∈ (DataFrame.mk ["v"] [[Cell.int 1], [Cell.int 3], [Cell.int 2]]).rows,
        r' ∉ res.rows →
        ∀ a b : Int, getCell r 0 = Cell.int a → getCell r' 0 = Cell.int b → b ≤ a)) :=
  ⟨by decide, by decide, c6_topn_bound _ "v" 0 2 (by decide) (by decide)⟩

/-- C7: on a numeric column `nlargest` is the stable descending
selection: among selected records with equal values the original order is
preserved (positions earlier in the output have smaller original row
indices), and at a tie the record seen first in the table wins a place in
the selection. -/
theorem c7_topn_stability (df : DataFrame) (col : String) (j n : Nat)
    (hcol : colIdx df.header col = some j)
    (hint : ∀ r ∈ df.rows, (getCell r j).isInt = true) :
    nlargest df n col = .ok ⟨df.header, (nlargestSel df j n).map TRow.cells⟩ ∧
    (∀ (p q : Nat) (hp : p < (nlargestSel df j n).length)
        (hq : q < (nlargestSel df j n).length), p < q →
      ((nlargestSel df j n).get ⟨p, hp⟩).val = ((nlargestSel df j n).get ⟨q, hq⟩).val →
      ((nlargestSel df j n).get ⟨p, hp⟩).idx < ((nlargestSel df j n).get ⟨q, hq⟩).idx) ∧
    (∀ a b : TRow, a ∈ tagged df j → b ∈ tagged df j → a.val = b.val → a.idx < b.idx →
      b ∈ nlargestSel df j n → a ∈ nlargestSel df j n) := by
  have hsorted : List.Sorted trel (List.insertionSort trel (tagged df j)) :=
    List.sorted_insertionSort trel (tagged df j)
  have hperm : List.Perm (List.insertionSort trel (tagged df j)) (tagged df j) :=
    List.perm_insertionSort trel (tagged df j)
  have hsubl : List.Sublist (nlargestSel df j n) (List.insertionSort trel (tagged df j)) :=
    List.take_sublist n (List.insertionSort trel (tagged df j))
  refine ⟨nlargest_ok_of n hcol hint, ?_, ?_⟩
  · intro p q hp hq hpq hval
    have hpw : List.Pairwise trel (nlargestSel df j n) := hsorted.sublist hsubl
    have hrel := (List.pairwise_iff_get.1 hpw) ⟨p, hp⟩ ⟨q, hq⟩ hpq
    rcases hrel with hlt | ⟨heq, hle⟩
    · rw [hval] at hlt
      exact absurd hlt (lt_irrefl _)
    · have hnd0 : List.Pairwise (fun a b : TRow => a.idx < b.idx) (tagged df j) :=
        tag_pairwise_idx df.rows j 0
      have hnd1 : ((tagged df j).map TRow.idx).Nodup :=
        List.Pairwise.map _ (fun a b h => Nat.ne_of_lt h) hnd0
      have hnd2 : ((List.insertionSort trel (tagged df j)).map TRow.idx).Nodup :=
        ((hperm.map TRow.idx).nodup_iff).2 hnd1
      have hnd3 : ((nlargestSel df j n).map TRow.idx).Nodup :=
        hnd2.sublist (hsubl.map TRow.idx)
      refine lt_of_le_of_ne hle ?_
      intro he
      have hp' : p < ((nlargestSel df j n).map TRow.idx).length := by
        simpa using hp
      have hq' : q < ((nlargestSel df j n).map TRow.idx).length := by
        simpa using hq
      have e1 : ((nlargestSel df j n).map TRow.idx).get ⟨p, hp'⟩ =
          ((nlargestSel df j n).map TRow.idx).get ⟨q, hq'⟩ := by
        rw [List.get_eq_getElem, List.get_eq_getElem, List.getElem_map, List.getElem_map]
        simpa using he
      have := (List.Nodup.get_inj_iff hnd3).1 e1
      have : p = q := congrArg Fin.val this
      omega
  · intro a b ha hb hval hidx hbsel
    have haS : a ∈ List.insertionSort trel (tagged df j) :=
      (List.mem_insertionSort trel).2 ha
    rw [← List.take_append_drop n (List.insertionSort trel (tagged df j))] at haS
    rcases List.mem_append.1 haS with h | h
    · exact h
    · exfalso
      have hrel : trel b a := List.Sorted.rel_of_mem_take_of_mem_drop hsorted hbsel h
      rcases hrel with hlt | ⟨heq, hle⟩
      · rw [hval] at hlt
        exact lt_irrefl _ hlt
      · omega

theorem c7_topn_stability_witness :
    colIdx (DataFrame.mk ["v"] [[Cell.int 5], [Cell.int 9], [Cell.int 5]]).header "v" = some 0 ∧
    (∀ r ∈ (DataFrame.mk ["v"] [[Cell.int 5], [Cell.int 9], [Cell.int 5]]).rows,
      (getCell r 0).isInt = true) ∧
    (nlargest (DataFrame.mk ["v"] [[Cell.int 5], [Cell.int 9], [Cell.int 5]]) 3 "v" =
       .ok ⟨(DataFrame.mk ["v"] [[Cell.int 5], [Cell.int 9], [Cell.int 5]]).header,
            (nlargestSel (DataFrame.mk ["v"] [[Cell.int 5], [Cell.int 9], [Cell.int 5]]) 0 3).map TRow.cells⟩ ∧
     (∀ (p q : Nat)
         (hp : p < (nlargestSel (DataFrame.mk ["v"] [[Cell.int 5], [Cell.int 9], [Cell.int 5]]) 0 3).length)
         (hq : q < (nlargestSel (DataFrame.mk ["v"] [[Cell.int 5], [Cell.int 9], [Cell.int 5]]) 0 3).length),
       p < q →
       ((nlargestSel (DataFrame.mk ["v"] [[Cell.int 5], [Cell.int 9], [Cell.int 5]]) 0 3).get ⟨p, hp⟩).val =
         ((nlargestSel (DataFrame.mk ["v"] [[Cell.int 5], [Cell.int 9], [Cell.int 5]]) 0 3).get ⟨q, hq⟩).val →
       ((nlargestSel (DataFrame.mk ["v"] [[Cell.int 5], [Cell.int 9], [Cell.int 5]]) 0 3).get ⟨p, hp⟩).idx <
         ((nlargestSel (DataFrame.mk ["v"] [[Cell.int 5], [Cell.int 9], [Cell.int 5]]) 0 3).get ⟨q, hq⟩).idx) ∧
     (∀ a b : TRow,
       a ∈ tagged (DataFrame.mk ["v"] [[Cell.int 5], [Cell.int 9], [Cell.int 5]]) 0 →
       b ∈ tagged (DataFrame.mk ["v"] [[Cell.int 5], [Cell.int 9], [Cell.int 5]]) 0 →
       a.val = b.val → a.idx < b.idx →
       b ∈ nlargestSel (DataFrame.mk ["v"] [[Cell.int 5], [Cell.int 9], [Cell.int 5]]) 0 3 →
       a ∈ nlargestSel (DataFrame.mk ["v"] [[Cell.int 5], [Cell.int 9], [Cell.int 5]]) 0 3)) :=
  ⟨by decide, by decide, c7_topn_stability _ "v" 0 3 (by decide) (by decide)⟩

/-! ## Normalization: `fillna(0).astype(int)` column loop -/

theorem cc_ok_int {c v : Cell} (h : coerceCell c = .ok v) : ∃ k, v = Cell.int k := by
  cases c with
  | int n => exact ⟨n, by cases h; rfl⟩
  | na => exact ⟨0, by cases h; rfl⟩
  | str s =>
      cases hs : strToInt? s with
      | none => simp only [coerceCell, hs] at h; cases h
      | some n =>
          simp only [coerceCell, hs] at h
          exact ⟨n, by cases h; rfl⟩

theorem forall2_mem_right {α β : Type} {R : α → β → Prop} :
    ∀ {l : List α} {l' : List β} {b : β},
      List.Forall₂ R l l' → b ∈ l' → ∃ a ∈ l, R a b := by
  intro l l' b h
  induction h with
  | nil => intro hb; simp at hb
  | cons hab _ ih =>
      intro hb
      rcases List.mem_cons.1 hb with he | hb'
      · subst he; exact ⟨_, List.mem_cons_self _ _, hab⟩
      · obtain ⟨a, ha, hr⟩ := ih hb'
        exact ⟨a, List.mem_cons_of_mem _ ha, hr⟩

theorem forall2_mem_left {α β : Type} {R : α → β → Prop} :
    ∀ {l : List α} {l' : List β} {a : α},
      List.Forall₂ R l l' → a ∈ l → ∃ b ∈ l', R a b := by
  intro l l' a h
  induction h with
  | nil => intro ha; simp at ha
  | cons hab _ ih =>
      intro ha
      rcases List.mem_cons.1 ha with he | ha'
      · subst he; exact ⟨_, List.mem_cons_self _ _, hab⟩
      · obtain ⟨b, hb, hr⟩ := ih ha'
        exact ⟨b, List.mem_cons_of_mem _ hb, hr⟩

theorem forall2_comp {α β γ : Type} {R : α → β → Prop} {S : β → γ → Prop}
    {T : α → γ → Prop} (h : ∀ a b c, R a b → S b c → T a c) :
    ∀ {l1 : List α} {l2 : List β} {l3 : List γ},
      List.Forall₂ R l1 l2 → List.Forall₂ S l2 l3 → List.Forall₂ T l1 l3 := by
  intro l1 l2 l3 h12
  induction h12 generalizing l3 with
  | nil =>
      intro h23
      cases h23
      exact List.Forall₂.nil
  | cons hab htail ih =>
      intro h23
      cases h23 with
      | cons hbc h23' => exact List.Forall₂.cons (h _ _ _ hab hbc) (ih h23')

theorem forall2_imp_mem {α β : Type} {R S : α → β → Prop} :
    ∀ {l : List α} {l' : List β},
      List.Forall₂ R l l' → (∀ a ∈ l, ∀ b ∈ l', R a b → S a b) → List.Forall₂ S l l' := by
  intro l l' h
  induction h with
  | nil => intro; exact List.Forall₂.nil
  | cons hab htail ih =>
      intro himp
      refine List.Forall₂.cons
        (himp _ (List.mem_cons_self _ _) _ (List.mem_cons_self _ _) hab) (ih ?_)
      intro a ha b hb hr
      exact himp a (List.mem_cons_of_mem _ ha) b (List.mem_cons_of_mem _ hb) hr

theorem forall2_map_self {α β : Type} (f : α → β) :
    ∀ (l : List α), List.Forall₂ (fun a b => b = f a) l (l.map f)
  | [] => List.Forall₂.nil
  | a :: l => List.Forall₂.cons rfl (forall2_map_self f l)

theorem cr_forall2 : ∀ {j : Nat} {rs rs' : List (List Cell)},
    coerceRows j rs = .ok rs' →
    List.Forall₂ (fun r r' =>
      coerceCell (getCell r j) = .ok (getCell r' j) ∧
      ∀ i, i ≠ j → getCell r' i = getCell r i) rs rs' := by
  intro j rs
  induction rs with
  | nil =>
      intro rs' h
      cases h
      exact List.Forall₂.nil
  | cons r rs ih =>
      intro rs' h
      unfold coerceRows at h
      cases hv : coerceCell (getCell r j) with
      | error e => rw [hv] at h; cases h
      | ok v =>
          rw [hv] at h
          cases hrec : coerceRows j rs with
          | error e => rw [hrec] at h; cases h
          | ok rs0 =>
              rw [hrec] at h
              cases h
              refine List.Forall₂.cons ⟨?_, ?_⟩ (ih hrec)
              · rw [getCell_setCell_self]; exact hv
              · intro i hi
                exact getCell_setCell_ne r j i v (fun he => hi he.symm)

theorem cr_error_of_mem : ∀ {j : Nat} {rs : List (List Cell)} {r : List Cell} {e : Err},
    r ∈ rs → coerceCell (getCell r j) = .error e →
    ∃ e', coerceRows j rs = .error e' := by
  intro j rs
  induction rs with
  | nil => intro r e hr; simp at hr
  | cons r0 rs ih =>
      intro r e hr hbad
      unfold coerceRows
      rcases List.mem_cons.1 hr with he | hr'
      · subst he
        rw [hbad]
        exact ⟨e, rfl⟩
      · cases hv : coerceCell (getCell r0 j) with
        | error e0 => exact ⟨e0, rfl⟩
        | ok v =>
            obtain ⟨e', he'⟩ := ih hr' hbad
            rw [he']
            exact ⟨e', rfl⟩

theorem except_map_ok {α β : Type} {x : Except Err α} {f : α → β} {b : β}
    (h : x.map f = .ok b) : ∃ a, x = .ok a ∧ f a = b := by
  cases x with
  | error e => cases h
  | ok a => exact ⟨a, rfl, by cases h; rfl⟩

theorem except_bind_ok {α β : Type} {x : Except Err α} {f : α → Except Err β} {b : β}
    (h : (x >>= f) = .ok b) : ∃ a, x = .ok a ∧ f a = .ok b := by
  cases x with
  | error e => cases h
  | ok a => exact ⟨a, rfl, h⟩

theorem fix_present {df df' : DataFrame} {c : String} {j : Nat}
    (h : fixCol df c = .ok df') (hcol : colIdx df.header c = some j) :
    df'.header = df.header ∧
    List.Forall₂ (fun r r' =>
      coerceCell (getCell r j) = .ok (getCell r' j) ∧
      ∀ i, i ≠ j → getCell r' i = getCell r i) df.rows df'.rows := by
  unfold fixCol at h
  rw [hcol] at h
  obtain ⟨rs', hrs, hdf⟩ := except_map_ok h
  subst hdf
  exact ⟨rfl, cr_forall2 hrs⟩

theorem fix_absent {df df' : DataFrame} {c : String}
    (h : fixCol df c = .ok df') (hcol : colIdx df.header c = none) :
    df'.header = df.header ++ [c] ∧
    List.Forall₂ (fun r r' =>
      getCell r' df.header.length = Cell.int 0 ∧
      ∀ i, i ≠ df.header.length → getCell r' i = getCell r i) df.rows df'.rows := by
  unfold fixCol at h
  rw [hcol] at h
  obtain ⟨rs', hrs, hdf⟩ := except_map_ok h
  subst hdf
  refine ⟨rfl, ?_⟩
  have h1 := forall2_map_self (fun r => setCell r df.header.length (Cell.int 0)) df.rows
  have h2 := cr_forall2 hrs
  refine forall2_comp ?_ h1 h2
  rintro r r0 r' hmap ⟨hco, hother⟩
  subst hmap
  constructor
  · rw [getCell_setCell_self] at hco
    have hz : coerceCell (Cell.int 0) = .ok (Cell.int 0) := rfl
    rw [hz] at hco
    exact (Except.ok.inj hco).symm
  · intro i hi
    rw [hother i hi]
    exact getCell_setCell_ne r df.header.length i (Cell.int 0) (fun he => hi he.symm)

theorem fix_error {df : DataFrame} {c : String} {j : Nat} {r : List Cell} {e : Err}
    (hcol : colIdx df.header c = some j) (hr : r ∈ df.rows)
    (hbad : coerceCell (getCell r j) = .error e) :
    ∃ e', fixCol df c = .error e' := by
  unfold fixCol
  rw [hcol]
  dsimp only
  obtain ⟨e', he'⟩ := cr_error_of_mem hr hbad
  rw [he']
  exact ⟨e', rfl⟩

theorem fix_header {df df' : DataFrame} {c : String} (h : fixCol df c = .ok df') :
    df'.header = df.header ∨ df'.header = df.header ++ [c] := by
  cases hcol : colIdx df.header c with
  | some j => exact Or.inl (fix_present h hcol).1
  | none => exact Or.inr (fix_absent h hcol).1

theorem step_keep {d d1 : DataFrame} {c0 c : String} {j : Nat}
    (h : fixCol d c0 = .ok d1) (hcol : colIdx d.header c = some j) (hne : c ≠ c0) :
    colIdx d1.header c = some j ∧
    List.Forall₂ (fun r r' => getCell r' j = getCell r j) d.rows d1.rows := by
  cases hcol0 : colIdx d.header c0 with
  | some j0 =>
      obtain ⟨hh, hf⟩ := fix_present h hcol0
      have hjj : j ≠ j0 := colIdx_inj hcol hcol0 hne
      refine ⟨by rw [hh]; exact hcol, ?_⟩
      exact hf.imp (fun a b hr => hr.2 j hjj)
  | none =>
      obtain ⟨hh, hf⟩ := fix_absent h hcol0
      have hjl : j ≠ d.header.length := by
        have hlt := colIdx_lt hcol
        omega
      refine ⟨by rw [hh]; exact colIdx_append_left [c0] hcol, ?_⟩
      exact hf.imp (fun a b hr => hr.2 j hjl)

theorem step_keep_self_int {d d1 : DataFrame} {c : String} {j : Nat}
    (h : fixCol d c = .ok d1) (hcol : colIdx d.header c = some j)
    (hint : ∀ r ∈ d.rows, (getCell r j).isInt = true) :
    colIdx d1.header c = some j ∧
    List.Forall₂ (fun r r' => getCell r' j = getCell r j) d.rows d1.rows := by
  obtain ⟨hh, hf⟩ := fix_present h hcol
  refine ⟨by rw [hh]; exact hcol, ?_⟩
  refine forall2_imp_mem hf ?_
  rintro r hr r' hr' ⟨hco, -⟩
  have hii := hint r hr
  cases hg : getCell r j with
  | int k =>
      rw [hg] at hco
      have hk : coerceCell (Cell.int k) = .ok (Cell.int k) := rfl
      rw [hk] at hco
      exact (Except.ok.inj hco).symm
  | str s => rw [hg] at hii; simp [Cell.isInt] at hii
  | na => rw [hg] at hii; simp [Cell.isInt] at hii

theorem step_preserve {d d1 : DataFrame} {c0 c : String} {j : Nat}
    (h : fixCol d c0 = .ok d1) (hcol : colIdx d.header c = some j)
    (hint : ∀ r ∈ d.rows, (getCell r j).isInt = true) :
    colIdx d1.header c = some j ∧
    List.Forall₂ (fun r r' => getCell r' j = getCell r j) d.rows d1.rows := by
  by_cases hc : c = c0
  · subst hc
    exact step_keep_self_int h hcol hint
  · exact step_keep h hcol hc

theorem chain_preserve {c : String} {j : Nat} : ∀ {cs : List String} {d out : DataFrame},
    cs.foldlM fixCol d = .ok out → colIdx d.header c = some j →
    (∀ r ∈ d.rows, (getCell r j).isInt = true) →
    colIdx out.header c = some j ∧
    List.Forall₂ (fun r r' => getCell r' j = getCell r j) d.rows out.rows := by
  intro cs
  induction cs with
  | nil =>
      intro d out h hcol hint
      cases h
      exact ⟨hcol, List.forall₂_same.2 (fun a _ => rfl)⟩
  | cons c0 cs ih =>
      intro d out h hcol hint
      rw [List.foldlM_cons] at h
      obtain ⟨d1, hfix, hrest⟩ := except_bind_ok h
      obtain ⟨hcol1, hf1⟩ := step_preserve hfix hcol hint
      have hint1 : ∀ r1 ∈ d1.rows, (getCell r1 j).isInt = true := by
        intro r1 hr1
        obtain ⟨r, hr, he⟩ := forall2_mem_right hf1 hr1
        rw [he]
        exact hint r hr
      obtain ⟨hcol2, hf2⟩ := ih hrest hcol1 hint1
      refine ⟨hcol2, forall2_comp ?_ hf1 hf2⟩
      intro a b c' h1 h2
      rw [h2, h1]

theorem chain_absent {c : String} : ∀ {cs : List String} {d out : DataFrame},
    cs.foldlM fixCol d = .ok out → c ∈ cs → colIdx d.header c = none →
    ∃ j, colIdx out.header c = some j ∧ ∀ r' ∈ out.rows, getCell r' j = Cell.int 0 := by
  intro cs
  induction cs with
  | nil => intro d out h hm; simp at hm
  | cons c0 cs ih =>
      intro d out h hm hnone
      rw [List.foldlM_cons] at h
      obtain ⟨d1, hfix, hrest⟩ := except_bind_ok h
      by_cases hc : c = c0
      · subst hc
        obtain ⟨hh, hf⟩ := fix_absent hfix hnone
        have hcol1 : colIdx d1.header c = some d.header.length := by
          rw [hh]; exact colIdx_append_new hnone
        have hzero1 : ∀ r1 ∈ d1.rows, getCell r1 d.header.length = Cell.int 0 := by
          intro r1 hr1
          obtain ⟨r, hr, hz, _⟩ := forall2_mem_right hf hr1
          exact hz
        have hint1 : ∀ r1 ∈ d1.rows, (getCell r1 d.header.length).isInt = true := by
          intro r1 hr1
          rw [hzero1 r1 hr1]
          rfl
        obtain ⟨hcol2, hf2⟩ := chain_preserve hrest hcol1 hint1
        refine ⟨d.header.length, hcol2, ?_⟩
        intro r' hr'
        obtain ⟨r1, hr1, he⟩ := forall2_mem_right hf2 hr'
        rw [he]
        exact hzero1 r1 hr1
      · have hm' : c ∈ cs := by
          rcases List.mem_cons.1 hm with he | hm'
          · exact absurd he hc
          · exact hm'
        have hnone1 : colIdx d1.header c = none := by
          cases hcol0 : colIdx d.header c0 with
          | some j0 => rw [(fix_present hfix hcol0).1]; exact hnone
          | none => rw [(fix_absent hfix hcol0).1]; exact colIdx_append_keep hnone hc
        exact ih hrest hm' hnone1

theorem chain_present {c : String} {j : Nat} : ∀ {cs : List String} {d out : DataFrame},
    cs.foldlM fixCol d = .ok out → c ∈ cs → colIdx d.header c = some j →
    colIdx out.header c = some j ∧
    List.Forall₂ (fun r r' => coerceCell (getCell r j) = .ok (getCell r' j)) d.rows out.rows := by
  intro cs
  induction cs with
  | nil => intro d out h hm; simp at hm
  | cons c0 cs ih =>
      intro d out h hm hcol
      rw [List.foldlM_cons] at h
      obtain ⟨d1, hfix, hrest⟩ := except_bind_ok h
      by_cases hc : c = c0
      · subst hc
        obtain ⟨hh, hf⟩ := fix_present hfix hcol
        have hcol1 : colIdx d1.header c = some j := by rw [hh]; exact hcol
        have hf1 : List.Forall₂ (fun r r' =>
            coerceCell (getCell r j) = .ok (getCell r' j)) d.rows d1.rows :=
          hf.imp (fun a b hr => hr.1)
        have hint1 : ∀ r1 ∈ d1.rows, (getCell r1 j).isInt = true := by
          intro r1 hr1
          obtain ⟨r, hr, hco⟩ := forall2_mem_right hf1 hr1
          obtain ⟨k, hk⟩ := cc_ok_int hco
          rw [hk]
          rfl
        obtain ⟨hcol2, hf2⟩ := chain_preserve hrest hcol1 hint1
        refine ⟨hcol2, forall2_comp ?_ hf1 hf2⟩
        intro a b c' h1 h2
        rw [← h2] at h1
        exact h1
      · have hm' : c ∈ cs := by
          rcases List.mem_cons.1 hm with he | hm'
          · exact absurd he hc
          · exact hm'
        obtain ⟨hcol1, hf1⟩ := step_keep hfix hcol hc
        obtain ⟨hcol2, hf2⟩ := ih hrest hm' hcol1
        refine ⟨hcol2, forall2_comp ?_ hf1 hf2⟩
        intro a b c' h1 h2
        rw [h1] at h2
        exact h2

theorem chain_error {c : String} {j : Nat} {e : Err} :
    ∀ {cs : List String} {d : DataFrame} {r : List Cell},
    c ∈ cs → colIdx d.header c = some j → r ∈ d.rows →
    coerceCell (getCell r j) = .error e →
    ∃ e', cs.foldlM fixCol d = .error e' := by
  intro cs
  induction cs with
  | nil => intro d r hm; simp at hm
  | cons c0 cs ih =>
      intro d r hm hcol hr hbad
      rw [List.foldlM_cons]
      cases hfix : fixCol d c0 with
      | error e0 => exact ⟨e0, rfl⟩
      | ok d1 =>
          by_cases hc : c = c0
          · subst hc
            obtain ⟨_, hf⟩ := fix_present hfix hcol
            obtain ⟨r', _, hco, _⟩ := forall2_mem_left hf hr
            rw [hbad] at hco
            cases hco
          · have hm' : c ∈ cs := by
              rcases List.mem_cons.1 hm with he | hm'
              · exact absurd he hc
              · exact hm'
            obtain ⟨hcol1, hf1⟩ := step_keep hfix hcol hc
            obtain ⟨r1, hr1, he1⟩ := forall2_mem_left hf1 hr
            have hbad1 : coerceCell (getCell r1 j) = .error e := by
              rw [he1]
              exact hbad
            obtain ⟨e', he'⟩ := ih hm' hcol1 hr1 hbad1
            show ∃ e'', List.foldlM fixCol d1 cs = Except.error e''
            exact ⟨e', he'⟩

theorem chain_header_ext : ∀ {cs : List String} {d out : DataFrame},
    cs.foldlM fixCol d = .ok out → ∃ ext, out.header = d.header ++ ext := by
  intro cs
  induction cs with
  | nil =>
      intro d out h
      cases h
      exact ⟨[], by simp⟩
  | cons c0 cs ih =>
      intro d out h
      rw [List.foldlM_cons] at h
      obtain ⟨d1, hfix, hrest⟩ := except_bind_ok h
      obtain ⟨ext, hext⟩ := ih hrest
      rcases fix_header hfix with hh | hh
      · exact ⟨ext, by rw [hext, hh]⟩
      · exact ⟨[c0] ++ ext, by rw [hext, hh, List.append_assoc]⟩

theorem loadData_ok_inv {raw : RawInput} {df : DataFrame}
    (h : loadData raw = (df, [])) :
    ∃ d0 M, readCsv raw = .ok d0 ∧ merge d0 d0 "nome_deputado" = .ok M ∧
      normalizeCols (renameCols M) = .ok df := by
  unfold loadData at h
  cases hch : (readCsv raw).bind loadDataE with
  | error e =>
      rw [hch] at h
      injection h with h1 h2
      cases h2
  | ok d =>
      rw [hch] at h
      injection h with h1 h2
      subst h1
      obtain ⟨d0, hread, hLDE⟩ := except_bind_ok hch
      unfold loadDataE at hLDE
      obtain ⟨M, hM, hN⟩ := except_bind_ok hLDE
      exact ⟨d0, M, hread, hM, hN⟩

theorem normalizeCols_int {dfm out : DataFrame} (h : normalizeCols dfm = .ok out)
    {c : String} (hm : c ∈ engCols) :
    ∃ j, colIdx out.header c = some j ∧ ∀ r' ∈ out.rows, (getCell r' j).isInt = true := by
  unfold normalizeCols at h
  cases hcc : colIdx dfm.header c with
  | none =>
      obtain ⟨j, h1, h2⟩ := chain_absent h hm hcc
      exact ⟨j, h1, fun r' hr' => by rw [h2 r' hr']; rfl⟩
  | some j =>
      obtain ⟨h1, h2⟩ := chain_present h hm hcc
      refine ⟨j, h1, ?_⟩
      intro r' hr'
      obtain ⟨r, hr, hco⟩ := forall2_mem_right h2 hr'
      obtain ⟨k, hk⟩ := cc_ok_int hco
      rw [hk]
      rfl

theorem checkNormalized_of {df : DataFrame}
    (h : ∀ c ∈ engCols, ∃ j, colIdx df.header c = some j ∧
      ∀ r ∈ df.rows, (getCell r j).isInt = true) :
    checkNormalized df = true := by
  unfold checkNormalized
  rw [List.all_eq_true]
  intro c hc
  obtain ⟨j, h1, h2⟩ := h c hc
  unfold colIntAll
  rw [h1]
  rw [List.all_eq_true]
  exact h2

theorem checkNormalized_inv {df : DataFrame} (h : checkNormalized df = true) :
    ∀ c ∈ engCols, ∃ j, colIdx df.header c = some j ∧
      ∀ r ∈ df.rows, (getCell r j).isInt = true := by
  unfold checkNormalized at h
  rw [List.all_eq_true] at h
  intro c hc
  have hcc := h c hc
  unfold colIntAll at hcc
  cases hco : colIdx df.header c with
  | none => rw [hco] at hcc; cases hcc
  | some j =>
      rw [hco] at hcc
      rw [List.all_eq_true] at hcc
      exact ⟨j, rfl, hcc⟩

theorem checkNormalized_mono {d d' : DataFrame} (hh : d'.header = d.header)
    (hs : ∀ r ∈ d'.rows, r ∈ d.rows) (h : checkNormalized d = true) :
    checkNormalized d' = true := by
  apply checkNormalized_of
  intro c hc
  obtain ⟨j, h1, h2⟩ := checkNormalized_inv h c hc
  exact ⟨j, by rw [hh]; exact h1, fun r hr => h2 r (hs r hr)⟩

theorem filterEq_good {df d' : DataFrame} {col v : String}
    (h : d'.header = df.header ∧ ∀ r ∈ d'.rows, r ∈ df.rows) :
    (filterEq d' col v).header = df.header ∧
    ∀ r ∈ (filterEq d' col v).rows, r ∈ df.rows :=
  ⟨h.1, fun r hr => h.2 r (List.mem_filter.1 hr).1⟩

theorem filterName_good {df d' : DataFrame} {pat : String}
    (h : d'.header = df.header ∧ ∀ r ∈ d'.rows, r ∈ df.rows) :
    (filterName d' pat).header = df.header ∧
    ∀ r ∈ (filterName d' pat).rows, r ∈ df.rows :=
  ⟨h.1, fun r hr => h.2 r (List.mem_filter.1 hr).1⟩

theorem applyFilters_good (df : DataFrame) (uf partido search : String) :
    (applyFilters df uf partido search).header = df.header ∧
    ∀ r ∈ (applyFilters df uf partido search).rows, r ∈ df.rows := by
  have g0 : df.header = df.header ∧ ∀ r ∈ df.rows, r ∈ df.rows :=
    ⟨rfl, fun r hr => hr⟩
  unfold applyFilters
  dsimp only
  split_ifs
  all_goals
    repeat
      first
      | exact g0
      | apply filterEq_good
      | apply filterName_good

theorem nlargest_good {df res : DataFrame} {n : Nat} {col : String}
    (h : nlargest df n col = .ok res) :
    res.header = df.header ∧ ∀ r ∈ res.rows, r ∈ df.rows := by
  obtain ⟨j, hcol, hres⟩ := nlargest_ok_inv h
  subst hres
  refine ⟨rfl, ?_⟩
  intro r hr
  obtain ⟨t, ht, hc⟩ := List.mem_map.1 hr
  have hmem := (tag_mem (mem_sel_tagged ht)).2.1
  rw [← hc]
  exact hmem

/-- C2 (amended): after a successful load every one of the three
engagement columns exists and every one of its cells is an integer —
never NaN, never a string — and this invariant is preserved by the filter
cascade and by `nlargest`.  (The claim's additional "non-negative" is
false: see the counterexample.) -/
theorem c2_invariant :
    (∀ raw df, loadData raw = (df, []) → checkNormalized df = true) ∧
    (∀ df uf partido search, checkNormalized df = true →
      checkNormalized (applyFilters df uf partido search) = true) ∧
    (∀ df n col res, checkNormalized df = true → nlargest df n col = .ok res →
      checkNormalized res = true) := by
  refine ⟨?_, ?_, ?_⟩
  · intro raw df h
    obtain ⟨d0, M, hread, hM, hN⟩ := loadData_ok_inv h
    apply checkNormalized_of
    intro c hc
    exact normalizeCols_int hN hc
  · intro df uf partido search h
    obtain ⟨hh, hs⟩ := applyFilters_good df uf partido search
    exact checkNormalized_mono hh hs h
  · intro df n col res h hok
    obtain ⟨hh, hs⟩ := nlargest_good hok
    exact checkNormalized_mono hh hs h

theorem c2_invariant_witness :
    checkNormalized (DataFrame.mk
      ["nome_deputado", "seguidores_twitter", "curtidas_instagram", "visualizacoes_tiktok"]
      [[Cell.str "A", Cell.int 0, Cell.int 0, Cell.int 0]]) = true ∧
    checkNormalized (applyFilters (DataFrame.mk
      ["nome_deputado", "seguidores_twitter", "curtidas_instagram", "visualizacoes_tiktok"]
      [[Cell.str "A", Cell.int 0, Cell.int 0, Cell.int 0]]) "SP" "Todos" "x") = true :=
  ⟨c2_invariant.1 (RawInput.file ⟨["nome_deputado"], [[Cell.str "A"]]⟩) _ (by decide),
   c2_invariant.2.1 _ "SP" "Todos" "x"
     (c2_invariant.1 (RawInput.file ⟨["nome_deputado"], [[Cell.str "A"]]⟩) _ (by decide))⟩

/-- C2 counterexample: a negative value in an uploaded `seguidores`
column flows unchanged into `seguidores_twitter`, so normalized values
are not always non-negative. -/
theorem c2_counterexample :
    loadData (RawInput.file ⟨["nome_deputado", "seguidores"], [[Cell.str "A", Cell.int (-5)]]⟩)
      = (⟨["nome_deputado", "seguidores_twitter", "seguidores_y",
           "curtidas_instagram", "visualizacoes_tiktok"],
          [[Cell.str "A", Cell.int (-5), Cell.int (-5), Cell.int 0, Cell.int 0]]⟩, []) ∧
    getCell [Cell.str "A", Cell.int (-5), Cell.int (-5), Cell.int 0, Cell.int 0] 1 =
      Cell.int (-5) ∧
    ¬ (0 : Int) ≤ -5 := by
  refine ⟨by decide, rfl, by decide⟩

/-- C1 (amended): the column-completion loop synthesizes an absent
engagement column with 0 for every record and coerces each cell of a
present engagement column with `fillna(0).astype(int)` — so a missing
(NaN) cell becomes exactly 0 — but a non-numeric cell does not coerce to
0: it raises, the whole load fails, and `load_data` returns the empty
table with an error message. -/
theorem c1_normalize_coercion :
    (∀ dfm out, normalizeCols dfm = .ok out → ∀ c ∈ engCols,
      (colIdx dfm.header c = none →
        ∃ j, colIdx out.header c = some j ∧ ∀ r' ∈ out.rows, getCell r' j = Cell.int 0) ∧
      (∀ j, colIdx dfm.header c = some j →
        colIdx out.header c = some j ∧
        List.Forall₂ (fun r r' => coerceCell (getCell r j) = .ok (getCell r' j))
          dfm.rows out.rows)) ∧
    coerceCell Cell.na = .ok (Cell.int 0) ∧
    (∀ dfm c j r e, c ∈ engCols → colIdx dfm.header c = some j → r ∈ dfm.rows →
      coerceCell (getCell r j) = .error e → ∃ e', normalizeCols dfm = .error e') ∧
    (∀ raw, (loadData raw).2 = [] ∨
      ((loadData raw).1 = DataFrame.empty ∧ (loadData raw).2 ≠ [])) := by
  refine ⟨?_, rfl, ?_, ?_⟩
  · intro dfm out h c hc
    unfold normalizeCols at h
    constructor
    · intro hnone
      exact chain_absent h hc hnone
    · intro j hsome
      exact chain_present h hc hsome
  · intro dfm c j r e hc hcol hr hbad
    unfold normalizeCols
    exact chain_error hc hcol hr hbad
  · intro raw
    unfold loadData
    cases (readCsv raw).bind loadDataE <;> simp

theorem c1_normalize_coercion_witness :
    normalizeCols ⟨["a"], [[Cell.int 1]]⟩ =
      .ok ⟨["a", "seguidores_twitter", "curtidas_instagram", "visualizacoes_tiktok"],
           [[Cell.int 1, Cell.int 0, Cell.int 0, Cell.int 0]]⟩ ∧
    ("curtidas_instagram" ∈ engCols) ∧
    colIdx ["a"] "curtidas_instagram" = none ∧
    (∃ j, colIdx ["a", "seguidores_twitter", "curtidas_instagram", "visualizacoes_tiktok"]
        "curtidas_instagram" = some j ∧
      ∀ r' ∈ [[Cell.int 1, Cell.int 0, Cell.int 0, Cell.int 0]], getCell r' j = Cell.int 0) :=
  ⟨rfl, by decide, by decide,
   (c1_normalize_coercion.1 ⟨["a"], [[Cell.int 1]]⟩
      ⟨["a", "seguidores_twitter", "curtidas_instagram", "visualizacoes_tiktok"],
       [[Cell.int 1, Cell.int 0, Cell.int 0, Cell.int 0]]⟩
      rfl "curtidas_instagram" (by decide)).1 (by decide)⟩

/-- C1 counterexample: a non-numeric value (`"abc"`) in the uploaded
`seguidores` column (which becomes the present `seguidores_twitter`
column) does not coerce to 0 — `astype(int)` raises, the whole load
fails, and the produced table is empty, without any of the three
engagement columns. -/
theorem c1_counterexample :
    loadData (RawInput.file ⟨["nome_deputado", "seguidores"], [[Cell.str "A", Cell.str "abc"]]⟩)
      = (DataFrame.empty, ["Erro ao carregar dados: invalid literal for int: abc"]) ∧
    colIdx DataFrame.empty.header "seguidores_twitter" = none := by
  exact ⟨rfl, rfl⟩

/-! ## C3: the left join keeps every primary record -/

theorem merge_ok_inv {L R : DataFrame} {key : String} {M : DataFrame}
    (h : merge L R key = .ok M) :
    ∃ jL jR, colIdx L.header key = some jL ∧ colIdx R.header key = some jR ∧
      M.header = mergeHeader L.header R.header key ∧
      M.rows = catLists (L.rows.map
        (mergeRowsFor L.header.length jL jR (nonKeyPos R.header key) R.rows)) := by
  unfold merge at h
  cases h1 : colIdx L.header key with
  | none => rw [h1] at h; cases h
  | some jL =>
      cases h2 : colIdx R.header key with
      | none => rw [h1, h2] at h; cases h
      | some jR =>
          rw [h1, h2] at h
          cases h
          exact ⟨jL, jR, rfl, rfl, rfl, rfl⟩

theorem getCell_left_block (nL : Nat) (lrow rest : List Cell) {i : Nat} (hi : i < nL) :
    getCell (takePad nL lrow ++ rest) i = getCell lrow i := by
  rw [getCell_append]
  rw [if_pos (by rw [length_takePad]; exact hi)]
  exact getCell_takePad nL lrow i hi

/-- C3: the enrichment merge (`how='left'`) keeps every primary record:
each left row appears (with all its cells) in at least one merged row;
when its key matches no right row the right-hand block of that merged row
is entirely NaN; and the subsequent engagement coercion maps NaN to
exactly 0. -/
theorem c3_left_join_keeps (L R : DataFrame) (key : String) (jL jR : Nat) (M : DataFrame)
    (hL : colIdx L.header key = some jL) (hR : colIdx R.header key = some jR)
    (h : merge L R key = .ok M) :
    (∀ lrow ∈ L.rows, ∃ out ∈ M.rows,
      (∀ i, i < L.header.length → getCell out i = getCell lrow i) ∧
      ((∀ rr ∈ R.rows, getCell rr jR ≠ getCell lrow jL) →
        ∀ i, L.header.length ≤ i → getCell out i = Cell.na)) ∧
    coerceCell Cell.na = .ok (Cell.int 0) := by
  obtain ⟨jL', jR', hL', hR', hhdr, hrows⟩ := merge_ok_inv h
  rw [hL] at hL'
  rw [hR] at hR'
  cases hL'
  cases hR'
  refine ⟨?_, rfl⟩
  intro lrow hlrow
  have hgrp : mergeRowsFor L.header.length jL jR (nonKeyPos R.header key) R.rows lrow ∈
      L.rows.map (mergeRowsFor L.header.length jL jR (nonKeyPos R.header key) R.rows) :=
    List.mem_map_of_mem _ hlrow
  cases hms : R.rows.filter (keyMatches (getCell lrow jL) jR) with
  | nil =>
      refine ⟨takePad L.header.length lrow ++
        (nonKeyPos R.header key).map (fun _ => Cell.na), ?_, ?_, ?_⟩
      · rw [hrows]
        rw [mem_catLists]
        refine ⟨_, hgrp, ?_⟩
        unfold mergeRowsFor
        rw [hms]
        dsimp only
        exact List.mem_singleton.2 rfl
      · intro i hi
        exact getCell_left_block _ _ _ hi
      · intro hnom i hi
        rw [getCell_append]
        rw [if_neg (by rw [length_takePad]; omega)]
        exact getCell_map_na _ _
  | cons rr ms' =>
      refine ⟨takePad L.header.length lrow ++
        (nonKeyPos R.header key).map (getCell rr), ?_, ?_, ?_⟩
      · rw [hrows]
        rw [mem_catLists]
        refine ⟨_, hgrp, ?_⟩
        unfold mergeRowsFor
        rw [hms]
        dsimp only
        rw [if_neg (by simp)]
        exact List.mem_map_of_mem _ (List.mem_cons_self _ _)
      · intro i hi
        exact getCell_left_block _ _ _ hi
      · intro hnom i hi
        exfalso
        have hrrmem : rr ∈ R.rows.filter (keyMatches (getCell lrow jL) jR) := by
          rw [hms]
          exact List.mem_cons_self _ _
        have h1 := List.mem_filter.1 hrrmem
        have h2 : getCell rr jR = getCell lrow jL := by
          have := h1.2
          unfold keyMatches at this
          exact of_decide_eq_true this
        exact hnom rr h1.1 h2

theorem c3_left_join_keeps_witness :
    colIdx ["nome_deputado"] "nome_deputado" = some 0 ∧
    colIdx ["nome_deputado", "eng"] "nome_deputado" = some 0 ∧
    merge ⟨["nome_deputado"], [[Cell.str "X"]]⟩ ⟨["nome_deputado", "eng"], [[Cell.str "Y", Cell.int 3]]⟩
        "nome_deputado" = .ok ⟨["nome_deputado", "eng"], [[Cell.str "X", Cell.na]]⟩ ∧
    ((∀ lrow ∈ (DataFrame.mk ["nome_deputado"] [[Cell.str "X"]]).rows,
      ∃ out ∈ (DataFrame.mk ["nome_deputado", "eng"] [[Cell.str "X", Cell.na]]).rows,
        (∀ i, i < (DataFrame.mk ["nome_deputado"] [[Cell.str "X"]]).header.length →
          getCell out i = getCell lrow i) ∧
        ((∀ rr ∈ (DataFrame.mk ["nome_deputado", "eng"] [[Cell.str "Y", Cell.int 3]]).rows,
            getCell rr 0 ≠ getCell lrow 0) →
          ∀ i, (DataFrame.mk ["nome_deputado"] [[Cell.str "X"]]).header.length ≤ i →
            getCell out i = Cell.na)) ∧
      coerceCell Cell.na = .ok (Cell.int 0)) :=
  ⟨by decide, by decide, rfl,
   c3_left_join_keeps ⟨["nome_deputado"], [[Cell.str "X"]]⟩
     ⟨["nome_deputado", "eng"], [[Cell.str "Y", Cell.int 3]]⟩ "nome_deputado" 0 0
     ⟨["nome_deputado", "eng"], [[Cell.str "X", Cell.na]]⟩ (by decide) (by decide) rfl⟩

/-! ## C4: the self-merge suffixes away uploaded engagement columns -/

theorem getLast_append_two (l : List Char) (c1 c2 : Char) :
    (l ++ [c1, c2]).getLast? = some c2 := by
  rw [show l ++ [c1, c2] = (l ++ [c1]) ++ [c2] by simp]
  exact List.getLast?_concat _

theorem append_ux_ne {d t : String} (ht : t.data.getLast? ≠ some 'x') : d ++ "_x" ≠ t := by
  intro he
  apply ht
  rw [← he, String.data_append]
  have hx : ("_x" : String).data = ['_', 'x'] := rfl
  rw [hx]
  exact getLast_append_two d.data '_' 'x'

theorem append_uy_ne {d t : String} (ht : t.data.getLast? ≠ some 'y') : d ++ "_y" ≠ t := by
  intro he
  apply ht
  rw [← he, String.data_append]
  have hy : ("_y" : String).data = ['_', 'y'] := rfl
  rw [hy]
  exact getLast_append_two d.data '_' 'y'

theorem append_ux_inj {d e : String} (h : d ++ "_x" = e ++ "_x") : d = e := by
  have h2 := congrArg String.data h
  rw [String.data_append, String.data_append] at h2
  exact String.ext (List.append_cancel_right h2)

theorem getD_mem {l : List String} {i : Nat} (h : i < l.length) : l.getD i "" ∈ l := by
  rw [List.getD_eq_getElem l "" h]
  exact List.getElem_mem h

/-- After the self-merge and the `seguidores_x` rename, a canonical
engagement column name is absent from the header — unless it is
`seguidores_twitter` and the upload had a `seguidores` column. -/
theorem canonical_not_in_renamed_merged {hdr : List String} {c : String}
    (hc : c ∈ engCols)
    (hst : ¬(c = "seguidores_twitter" ∧ "seguidores" ∈ hdr)) :
    colIdx ((mergeHeader hdr hdr "nome_deputado").map
      (fun s => if s = "seguidores_x" then "seguidores_twitter" else s)) c = none := by
  rw [colIdx_none_iff]
  intro hmem
  obtain ⟨e, he, hrne⟩ := List.mem_map.1 hmem
  unfold mergeHeader at he
  rcases List.mem_append.1 he with h | h
  · obtain ⟨d, hd, hfd⟩ := List.mem_map.1 h
    by_cases hdk : d = "nome_deputado"
    · rw [if_pos hdk] at hfd
      subst hfd
      rw [hdk] at hrne
      rw [if_neg (by decide)] at hrne
      rw [← hrne] at hc
      exact absurd hc (by decide)
    · rw [if_neg hdk, if_pos hd] at hfd
      subst hfd
      by_cases hsx : d ++ "_x" = "seguidores_x"
      · rw [if_pos hsx] at hrne
        have hds : d = "seguidores" :=
          append_ux_inj (show d ++ "_x" = "seguidores" ++ "_x" by rw [hsx]; decide)
        exact hst ⟨hrne.symm, hds ▸ hd⟩
      · rw [if_neg hsx] at hrne
        simp only [engCols, List.mem_cons, List.not_mem_nil, or_false] at hc
        rcases hc with rfl | rfl | rfl
        · exact append_ux_ne (by decide) hrne
        · exact append_ux_ne (by decide) hrne
        · exact append_ux_ne (by decide) hrne
  · obtain ⟨i, hi, hgi⟩ := List.mem_map.1 h
    unfold nonKeyPos at hi
    have hi2 := List.mem_filter.1 hi
    have hilen : i < hdr.length := List.mem_range.1 hi2.1
    have hdmem : hdr.getD i "" ∈ hdr := getD_mem hilen
    have hgi' : (if hdr.getD i "" ∈ hdr then hdr.getD i "" ++ "_y" else hdr.getD i "") = e := hgi
    rw [if_pos hdmem] at hgi'
    subst hgi'
    have hnsx : hdr.getD i "" ++ "_y" ≠ "seguidores_x" := append_uy_ne (by decide)
    rw [if_neg hnsx] at hrne
    simp only [engCols, List.mem_cons, List.not_mem_nil, or_false] at hc
    rcases hc with rfl | rfl | rfl
    · exact append_uy_ne (by decide) hrne
    · exact append_uy_ne (by decide) hrne
    · exact append_uy_ne (by decide) hrne

/-- C4 (amended): when the upload already contains a canonical engagement
column, the self-merge renames it away with `_x`/`_y` suffixes (the
suffixed column remains in the output) and the canonical name is
re-created with constant 0 — the uploaded values are discarded — except
that `seguidores_twitter` is instead re-created from an uploaded
`seguidores` column (via the `seguidores_x` rename) when one exists. -/
theorem c4_upload_discarded (df out : DataFrame) (c : String)
    (hc : c ∈ engCols) (hmem : c ∈ df.header)
    (hst : ¬(c = "seguidores_twitter" ∧ "seguidores" ∈ df.header))
    (h : loadData (.file df) = (out, [])) :
    (c ++ "_x") ∈ out.header ∧
    ∃ j, colIdx out.header c = some j ∧ ∀ r ∈ out.rows, getCell r j = Cell.int 0 := by
  obtain ⟨d0, M, hread, hM, hN⟩ := loadData_ok_inv h
  have hd0 : df = d0 := by
    have hrd : readCsv (.file df) = Except.ok df := rfl
    rw [hrd] at hread
    exact Except.ok.inj hread
  rw [← hd0] at hM
  obtain ⟨jL, jR, hjL, hjR, hhdr, hrows⟩ := merge_ok_inv hM
  have hrenh : (renameCols M).header = (mergeHeader df.header df.header "nome_deputado").map
      (fun s => if s = "seguidores_x" then "seguidores_twitter" else s) := by
    show M.header.map _ = _
    rw [hhdr]
  have hnone : colIdx (renameCols M).header c = none := by
    rw [hrenh]
    exact canonical_not_in_renamed_merged hc hst
  unfold normalizeCols at hN
  obtain ⟨j, hcolj, hzero⟩ := chain_absent hN hc hnone
  have hkne : c ≠ "nome_deputado" := by
    simp only [engCols, List.mem_cons, List.not_mem_nil, or_false] at hc
    rcases hc with rfl | rfl | rfl <;> decide
  have hxne : c ++ "_x" ≠ "seguidores_x" := by
    intro he
    have : c = "seguidores" :=
      append_ux_inj (show c ++ "_x" = "seguidores" ++ "_x" by rw [he]; decide)
    rw [this] at hc
    exact absurd hc (by decide)
  have hcx : (c ++ "_x") ∈ (renameCols M).header := by
    rw [hrenh]
    apply List.mem_map.2
    refine ⟨c ++ "_x", ?_, ?_⟩
    · unfold mergeHeader
      apply List.mem_append_left
      apply List.mem_map.2
      refine ⟨c, hmem, ?_⟩
      rw [if_neg hkne, if_pos hmem]
    · rw [if_neg hxne]
  obtain ⟨ext, hext⟩ := chain_header_ext hN
  refine ⟨?_, j, hcolj, hzero⟩
  rw [hext]
  exact List.mem_append_left _ hcx

theorem c4_upload_discarded_witness :
    ("curtidas_instagram" ∈ engCols) ∧
    ("curtidas_instagram" ∈ ["nome_deputado", "curtidas_instagram"]) ∧
    (¬("curtidas_instagram" = "seguidores_twitter" ∧
        "seguidores" ∈ ["nome_deputado", "curtidas_instagram"])) ∧
    (("curtidas_instagram" ++ "_x") ∈
      ["nome_deputado", "curtidas_instagram_x", "curtidas_instagram_y",
       "seguidores_twitter", "curtidas_instagram", "visualizacoes_tiktok"] ∧
     ∃ j, colIdx ["nome_deputado", "curtidas_instagram_x", "curtidas_instagram_y",
         "seguidores_twitter", "curtidas_instagram", "visualizacoes_tiktok"]
         "curtidas_instagram" = some j ∧
       ∀ r ∈ [[Cell.str "A", Cell.int 9, Cell.int 9, Cell.int 0, Cell.int 0, Cell.int 0]],
         getCell r j = Cell.int 0) :=
  ⟨by decide, by decide, by decide,
   c4_upload_discarded
     ⟨["nome_deputado", "curtidas_instagram"], [[Cell.str "A", Cell.int 9]]⟩
     ⟨["nome_deputado", "curtidas_instagram_x", "curtidas_instagram_y",
       "seguidores_twitter", "curtidas_instagram", "visualizacoes_tiktok"],
      [[Cell.str "A", Cell.int 9, Cell.int 9, Cell.int 0, Cell.int 0, Cell.int 0]]⟩
     "curtidas_instagram" (by decide) (by decide) (by decide) rfl⟩

/-- C4 counterexample: the claim "the output column is 0 for every
record" fails when the upload has both `seguidores_twitter` and a
`seguidores` column — the canonical column is then re-created from
`seguidores` (value 7), not the constant 0. -/
theorem c4_counterexample :
    loadData (RawInput.file ⟨["nome_deputado", "seguidores", "seguidores_twitter"],
        [[Cell.str "A", Cell.int 7, Cell.int 100]]⟩)
      = (⟨["nome_deputado", "seguidores_twitter", "seguidores_twitter_x",
           "seguidores_y", "seguidores_twitter_y", "curtidas_instagram",
           "visualizacoes_tiktok"],
          [[Cell.str "A", Cell.int 7, Cell.int 100, Cell.int 7, Cell.int 100,
            Cell.int 0, Cell.int 0]]⟩, []) ∧
    getCell [Cell.str "A", Cell.int 7, Cell.int 100, Cell.int 7, Cell.int 100,
        Cell.int 0, Cell.int 0] 1 = Cell.int 7 ∧
    Cell.int 7 ≠ Cell.int 0 := by
  exact ⟨rfl, rfl, by decide⟩

end AppJoao
